import Mathlib

set_option maxHeartbeats 1000000
set_option maxRecDepth 100000

namespace PhishBot

/-! Shallow embedding of the Phishing-Awareness-Bot scoring engine
    (src/utils.py and src/detector.py).  Message text is represented as
    List Char.  Python strings in the inputs of interest are ASCII, so
    Python lower-casing, the re module character classes and str methods
    are modelled at ASCII precision. -/

/-! ### Generic text helpers (models of Python str primitives) -/

/-- Model of the Python whitespace class (re \s and str.strip at ASCII
    precision): space, tab, newline, carriage return, vertical tab, form
    feed. -/
def isPySpace (c : Char) : Bool :=
  c = ' ' || c = '\t' || c = '\n' || c = '\r' || c = Char.ofNat 11 || c = Char.ofNat 12

/-- Model of the re word class backslash-w at ASCII precision:
    letters, digits and underscore. -/
def isWordChar (c : Char) : Bool := c.isAlphanum || c = '_'

/-- Model of Python str.lower at ASCII precision. -/
def pyLower (l : List Char) : List Char := l.map Char.toLower

/-- Model of Python str.strip with no argument. -/
def pyStrip (l : List Char) : List Char :=
  ((l.dropWhile isPySpace).reverse.dropWhile isPySpace).reverse

/-- Model of Python str.split with a single-character separator:
    always returns at least one (possibly empty) part. -/
def splitOnChar (sep : Char) : List Char → List (List Char)
  | [] => [[]]
  | c :: t =>
    let r := splitOnChar sep t
    if c = sep then [] :: r
    else
      match r with
      | h :: t2 => (c :: h) :: t2
      | [] => [[c]]

/-- Model of the Python substring test (pat in hay). -/
def listContains (hay pat : List Char) : Bool :=
  match hay with
  | [] => pat.isEmpty
  | _ :: t => pat.isPrefixOf hay || listContains t pat

/-- Suffix after the first occurrence of pat, none when pat does not
    occur (used to model str.partition-style scanning). -/
def afterFirst (pat : List Char) : List Char → Option (List Char)
  | [] => if pat.isEmpty then some [] else none
  | c :: t =>
    if pat.isPrefixOf (c :: t) then some ((c :: t).drop pat.length)
    else afterFirst pat t

/-- Split at the first occurrence of a character: before and after. -/
def splitOnFirst (sep : Char) : List Char → Option (List Char × List Char)
  | [] => none
  | c :: t =>
    if c = sep then some ([], t)
    else
      match splitOnFirst sep t with
      | some (a, b) => some (c :: a, b)
      | none => none

/-- Last element of a split, mirroring the Python idiom split(sep)[-1]. -/
def lastPart (sep : Char) (l : List Char) : List Char :=
  (splitOnChar sep l).getLastD []

/-- Keep the first occurrence of each element, dropping later duplicates
    (models the contents of a Python set built from a generator; set
    iteration order is modelled as first-insertion order). -/
def dedupKeepFirstFuel : Nat → List (List Char) → List (List Char)
  | 0, _ => []
  | _, [] => []
  | fuel + 1, x :: t => x :: dedupKeepFirstFuel fuel (t.filter (· ≠ x))

/-- Entry point of the dedup: the fuel is the list length, which always
    suffices because each step consumes one element and filtering never
    lengthens the remainder.  (Structural fuel keeps the definition
    computable by kernel reduction.) -/
def dedupKeepFirst (l : List (List Char)) : List (List Char) :=
  dedupKeepFirstFuel l.length l

/-- Single-quote character, used when rendering the Python repr of a
    list of strings inside explanation strings. -/
def sq : String := String.singleton (Char.ofNat 39)

/-- Model of the Python repr of a list of strings, as interpolated by the
    f-strings in detector.py (entries joined by comma-space, each wrapped
    in single quotes; none of the rendered values contains a quote). -/
def pyListRepr (xs : List (List Char)) : String :=
  "[" ++ String.intercalate (", ") (xs.map (fun x => sq ++ String.mk x ++ sq)) ++ "]"

/-! ### utils.py: keyword and extension tables -/

/-- PHISHING_KEYWORDS from src/utils.py, in source order. -/
def PHISHING_KEYWORDS : List (List Char) :=
  (["urgent", "verify", "verify your account", "update your account", "password",
    "confirm", "click here", "account suspended", "limited time", "immediately",
    "login to", "reset your password", "bank", "paypal", "ssn", "social security"]
    : List String).map String.toList

/-- SUSPICIOUS_EXT from src/utils.py (a Python set; order is irrelevant
    because only membership-style any-tests are performed on it). -/
def SUSPICIOUS_EXT : List (List Char) :=
  ([".exe", ".scr", ".bat", ".cmd", ".vbs", ".js", ".jar", ".msi", ".ps1"]
    : List String).map String.toList

/-! ### utils.py: URL extraction -/

/-- Character admitted by the URL token class in extract_urls: anything
    but whitespace, single quote and double quote. -/
def urlChar (c : Char) : Bool :=
  !(isPySpace c || c = Char.ofNat 39 || c = Char.ofNat 34)

/-- Try to match one URL alternative at the current position: the fixed
    prefix followed by a non-empty greedy run of urlChar characters.
    Mirrors one regex alternative of url_regex in extract_urls. -/
def tryUrlToken (pre : List Char) (l : List Char) : Option (List Char) :=
  if pre.isPrefixOf l then
    let body := (l.drop pre.length).takeWhile urlChar
    if body.isEmpty then none else some (pre ++ body)
  else none

/-- Match of url_regex at the current position.  The regex alternation is
    https?:// first (the two spellings cannot both apply at one position)
    and then the bare www. form, each followed by at least one urlChar. -/
def matchUrlAt (l : List Char) : Option (List Char) :=
  match tryUrlToken ("https://".toList) l with
  | some t => some t
  | none =>
    match tryUrlToken ("http://".toList) l with
    | some t => some t
    | none => tryUrlToken ("www.".toList) l

/-- re.findall of url_regex: a left to right scan emitting
    non-overlapping matches and resuming after the end of each match.
    The fuel argument makes the recursion structural (each step consumes
    at least one character and exactly one unit of fuel, so fuel equal to
    the text length always suffices) and keeps the scan computable by
    kernel reduction. -/
def scanUrlsFuel : Nat → List Char → List (List Char)
  | 0, _ => []
  | _, [] => []
  | fuel + 1, c :: rest =>
    match matchUrlAt (c :: rest) with
    | some tok => tok :: scanUrlsFuel fuel ((c :: rest).drop tok.length)
    | none => scanUrlsFuel fuel rest

/-- Full scan of a text for URL tokens, with sufficient fuel. -/
def scanUrls (l : List Char) : List (List Char) := scanUrlsFuel l.length l

/-- extract_urls(text) from src/utils.py. -/
def extract_urls (text : List Char) : List (List Char) := scanUrls text

/-! ### utils.py: urlparse host extraction and tldextract -/

/-- Modelled from the spec: the host portion of a URL as produced by
    Python urllib.parse.urlparse(...).hostname, which is outside this
    repository.  For an http(s)-scheme URL the authority is the segment
    after the first scheme separator up to the first slash, question mark
    or hash; the host is that authority without the userinfo part (after
    the last at-sign) and without the port (before the first colon),
    lower-cased.  A string with no scheme separator has no authority and
    yields the empty host.  IPv6 bracket syntax is not modelled. -/
def pyHostname (u : List Char) : List Char :=
  match afterFirst ("://".toList) u with
  | none => []
  | some rest =>
    let netloc := rest.takeWhile (fun c => !(c = '/' || c = '?' || c = '#'))
    let hostport := (splitOnChar '@' netloc).getLastD []
    pyLower (hostport.takeWhile (fun c => c ≠ ':'))

/-- Host of a URL after the scheme normalization both is_ip_url and
    domain_from_url perform: a URL that does not start with the four
    characters http gets http:// prepended before parsing. -/
def urlHost (u : List Char) : List Char :=
  pyHostname (if ("http".toList).isPrefixOf u then u else ("http://".toList) ++ u)

/-- Modelled from the spec: the public-suffix list used by tldextract
    (a third-party library, outside this repository).  A representative
    ordered list of suffixes, most specific first; the registrable domain
    is the label before the matched suffix plus the suffix itself. -/
def publicSuffixes : List (List Char) :=
  (["co.uk", "ac.uk", "org.uk", "com", "net", "org", "edu", "gov", "mil",
    "int", "info", "biz", "io", "co", "uk", "ru", "de", "fr", "xyz", "top"]
    : List String).map String.toList

/-- Modelled from the spec: tldextract registered_domain.  Empty when the
    host does not end in a dotted public suffix with a non-empty label in
    front of it (for example a bare IPv4 literal host). -/
def registeredDomain (host : List Char) : List Char :=
  match publicSuffixes.find? (fun suf => ('.' :: suf).isSuffixOf host) with
  | some suf =>
    let pre := host.take (host.length - (suf.length + 1))
    let dom := (splitOnChar '.' pre).getLastD []
    if dom.isEmpty then [] else dom ++ '.' :: suf
  | none => []

/-- domain_from_url from src/utils.py: registrable domain of the URL
    host, lower-cased, falling back to the raw host when public-suffix
    resolution yields nothing. -/
def domain_from_url (u : List Char) : List Char :=
  let host := urlHost u
  let d := registeredDomain host
  if d.isEmpty then pyLower host else pyLower d

/-! ### utils.py: IP_REGEX and is_ip_url -/

/-- Word-boundary test for the position right before the first character
    of a candidate match: satisfied at the start of the string or after a
    non-word character.  (The pattern itself starts with a digit, which
    is a word character.) -/
def boundaryOk : Option Char → Bool
  | none => true
  | some c => !isWordChar c

/-- Word-boundary test for the position right after the last digit of a
    candidate match: satisfied at the end of the string or before a
    non-word character. -/
def quadEndOk : List Char → Bool
  | [] => true
  | c :: _ => !isWordChar c

/-- Take a run of one to three digits from the front; the run is maximal
    because a digit group of IP_REGEX must be followed by a literal dot
    or a word boundary, neither of which can be a digit. -/
def takeGroup (l : List Char) : Option (List Char × List Char) :=
  let d := l.takeWhile Char.isDigit
  if 1 ≤ d.length ∧ d.length ≤ 3 then some (d, l.dropWhile Char.isDigit) else none

/-- Consume a literal dot. -/
def expectDot : List Char → Option (List Char)
  | x :: r => if x = '.' then some r else none
  | [] => none

/-- Consume one digit group followed by a literal dot. -/
def quadTail (l : List Char) : Option (List Char) :=
  match takeGroup l with
  | some (_, r) => expectDot r
  | none => none

/-- Match of the body of IP_REGEX (four 1-3 digit groups separated by
    dots) at the current position, together with the trailing word
    boundary. -/
def matchQuad (l : List Char) : Bool :=
  match quadTail l with
  | none => false
  | some l2 =>
    match quadTail l2 with
    | none => false
    | some l3 =>
      match quadTail l3 with
      | none => false
      | some l4 =>
        match takeGroup l4 with
        | none => false
        | some (_, r) => quadEndOk r

/-- Scan of re.search for IP_REGEX: try every start position, requiring
    the leading word boundary there; prev is the character just before
    the current position. -/
def ipSearchAux : Option Char → List Char → Bool
  | prev, [] => boundaryOk prev && matchQuad []
  | prev, c :: t => (boundaryOk prev && matchQuad (c :: t)) || ipSearchAux (some c) t

/-- bool(IP_REGEX.search(host)) from src/utils.py. -/
def ipSearch (host : List Char) : Bool := ipSearchAux none host

/-- is_ip_url from src/utils.py: normalize the scheme, take the host and
    search it for the dotted-quad pattern. -/
def is_ip_url (u : List Char) : Bool := ipSearch (urlHost u)

/-! ### utils.py: header parsing (email stdlib model) -/

/-- Drop one trailing carriage return, so that CRLF input splits into the
    same lines the Python email parser sees. -/
def stripCR (l : List Char) : List Char :=
  if l.getLast? = some '\r' then l.dropLast else l

/-- Header region of the raw message: the lines before the first blank
    line. -/
def headerRegion (s : List Char) : List (List Char) :=
  ((splitOnChar '\n' s).map stripCR).takeWhile (fun l => !l.isEmpty)

/-- Modelled from the spec: the RFC-5322 header parser behind Python
    email.message_from_string with the default policy, which is outside
    this repository.  Each header line is name, colon, value with the
    name compared case-insensitively; continuation lines (leading blank)
    extend the previous header and are not needed by any claim, so they
    are skipped; a non-continuation header line without a colon is the
    malformed-input case and is modelled as the internal parse failure
    that extract_sender_from_headers and find_attachments catch. -/
def parseHeaderList : List (List Char) → Except String (List (List Char × List Char))
  | [] => Except.ok []
  | l :: rest =>
    if (l.head?.any fun c => c = ' ' || c = '\t') then parseHeaderList rest
    else
      match splitOnFirst ':' l with
      | some (n, v) =>
        match parseHeaderList rest with
        | Except.ok hs => Except.ok ((pyLower n, pyStrip v) :: hs)
        | Except.error e => Except.error e
      | none => Except.error ("missing colon in header line")

/-- Parse the header region of a raw message. -/
def parseHeaders (s : List Char) : Except String (List (List Char × List Char)) :=
  parseHeaderList (headerRegion s)

/-- First header with the given (lower-case) name, or empty, mirroring
    msg[name] or the empty-string fallback in utils.py. -/
def getHeader (nm : List Char) (hs : List (List Char × List Char)) : List Char :=
  match hs.find? (fun p => p.1 == nm) with
  | some p => p.2
  | none => []

/-- extract_sender_from_headers from src/utils.py: From and Reply-To
    headers, with the try/except collapsing any parse failure to a pair
    of empty strings. -/
def extract_sender_from_headers (s : List Char) : List Char × List Char :=
  match parseHeaders s with
  | Except.ok hs => (getHeader ("from".toList) hs, getHeader ("reply-to".toList) hs)
  | Except.error _ => ([], [])

/-! ### utils.py: attachments -/

/-- Character class of the sender-address regex in detector.py and of the
    filename tokens: word characters, dot and hyphen. -/
def emailChar (c : Char) : Bool := isWordChar c || c = '.' || c = '-'

/-- Modelled from the spec: MIME part walking of the email stdlib
    (outside this repository), reduced to scanning for attachment
    content-disposition lines and their filename parameter.  Quoted and
    bare filename values are both accepted. -/
def parseFilename (l : List Char) : List Char :=
  match afterFirst ("filename=".toList) l with
  | none => []
  | some rest =>
    match rest with
    | [] => []
    | q :: r =>
      if q = Char.ofNat 34 then r.takeWhile (fun c => c ≠ Char.ofNat 34)
      else (q :: r).takeWhile (fun c => c ≠ ';' && !isPySpace c)

/-- Whether a line declares an attachment disposition. -/
def isAttachLine (l : List Char) : Bool :=
  ("content-disposition:".toList).isPrefixOf (pyLower l)
    && listContains (pyLower l) ("attachment".toList)

/-- find_attachments from src/utils.py: filenames of attachment parts
    whose lower-cased name ends in one of the dangerous extensions; any
    parse failure yields the empty list. -/
def find_attachments (s : List Char) : List (List Char) :=
  match parseHeaders s with
  | Except.error _ => []
  | Except.ok _ =>
    ((((splitOnChar '\n' s).map stripCR).filter isAttachLine).map parseFilename).filter
      (fun fn => SUSPICIOUS_EXT.any (fun e => e.isSuffixOf (pyLower fn)))

/-! ### detector.py: the PhishDetector scoring engine -/

/-- re.search of the sender-address pattern (one or more emailChar, an
    at-sign, one or more emailChar) in detector.py analyze: leftmost
    match.  At a given position the greedy first group must cover the
    whole emailChar run, because backing off would leave an emailChar
    where the literal at-sign is required. -/
def findEmail : List Char → Option (List Char)
  | [] => none
  | c :: t =>
    let run := (c :: t).takeWhile emailChar
    let rest := (c :: t).dropWhile emailChar
    if run.isEmpty then findEmail t
    else
      match rest with
      | '@' :: r2 =>
        let dom := r2.takeWhile emailChar
        if dom.isEmpty then findEmail t else some (run ++ '@' :: dom)
      | _ => findEmail t

/-- The self.weights table of PhishDetector, as a name-indexed lookup. -/
def weights (name : String) : Nat :=
  if name = "suspicious_url" then 30
  else if name = "ip_url" then 20
  else if name = "http_not_https" then 10
  else if name = "multiple_links" then 8
  else if name = "urgent_language" then 15
  else if name = "suspicious_attachment" then 25
  else if name = "sender_mismatch" then 25
  else if name = "bad_tld" then 12
  else 0

/-- Insertion order of the self.weights dict. -/
def weightNames : List String :=
  ["suspicious_url", "ip_url", "http_not_https", "multiple_links",
   "urgent_language", "suspicious_attachment", "sender_mismatch", "bad_tld"]

/-- max_possible = sum(self.weights.values()) in analyze. -/
def maxPossibleRaw : Nat := (weightNames.map weights).sum

/-- One breakdown entry: (name, applied weight, explanation). -/
structure Signal where
  name : String
  weight : Nat
  explanation : String
deriving DecidableEq, Repr

/-- The result dictionary analyze returns. -/
structure AnalysisResult where
  score : Nat
  max_score : Nat
  raw_total : Nat
  max_possible_raw : Nat
  breakdown : List Signal
  sender : List Char
  reply_to : List Char
  urls : List (List Char)
deriving DecidableEq, Repr

/-- The keys of the dictionary literal analyze returns (detector.py lines
    125 to 134), in source order. -/
def analyzeResultKeys : List String :=
  ["score", "max_score", "raw_total", "max_possible_raw", "breakdown",
   "sender", "reply_to", "urls"]

/-- urls = extract_urls(body) where body is the entire raw text. -/
def urlsOf (s : List Char) : List (List Char) := extract_urls s

/-- suspicious_urls: URLs whose domain has two or more hyphens or more
    than three dot-separated labels. -/
def suspiciousUrlsOf (s : List Char) : List (List Char) :=
  (urlsOf s).filter (fun u =>
    let dom := domain_from_url u
    !dom.isEmpty && (decide (dom.count '-' ≥ 2) || decide ((splitOnChar '.' dom).length > 3)))

/-- bad_tld_count: how many URLs have a domain with a label longer than
    ten characters. -/
def badTldCountOf (s : List Char) : Nat :=
  ((urlsOf s).filter (fun u =>
    let dom := domain_from_url u
    !dom.isEmpty && (splitOnChar '.' dom).any (fun p => decide (p.length > 10)))).length

/-- ip_urls: URLs whose host matches IP_REGEX. -/
def ipUrlsOf (s : List Char) : List (List Char) := (urlsOf s).filter is_ip_url

/-- http_only: URLs that start with the plain http scheme. -/
def httpOnlyOf (s : List Char) : List (List Char) :=
  (urlsOf s).filter (fun u => ("http://".toList).isPrefixOf u)

/-- hits: the phishing keywords contained in the lower-cased body. -/
def hitsOf (s : List Char) : List (List Char) :=
  PHISHING_KEYWORDS.filter (fun kw => listContains (pyLower s) kw)

/-- The From header of the message. -/
def fromHeaderOf (s : List Char) : List Char := (extract_sender_from_headers s).1

/-- sender_domain: the part after the last at-sign of the first
    address-like pattern in the From header, lower-cased; empty when no
    pattern is found. -/
def senderDomainOf (s : List Char) : List Char :=
  match findEmail (fromHeaderOf s) with
  | some m => pyLower (lastPart '@' m)
  | none => []

/-- link_domains: the set of non-empty domains of the extracted URLs
    (set order modelled as first-insertion order). -/
def linkDomainsOf (s : List Char) : List (List Char) :=
  dedupKeepFirst (((urlsOf s).map domain_from_url).filter (fun d => !d.isEmpty))

/-- mismatch: sender domain and link domains present, and no link domain
    is in a suffix relationship with the sender domain (either direction)
    nor ends with the last dot-separated label of the sender domain. -/
def mismatchOf (s : List Char) : Bool :=
  let sd := senderDomainOf s
  let lds := linkDomainsOf s
  !sd.isEmpty && !lds.isEmpty &&
    !(lds.any (fun ld =>
      ld.isSuffixOf sd || sd.isSuffixOf ld || (lastPart '.' sd).isSuffixOf ld))

/-- Explanation string of the sender_mismatch signal. -/
def mismatchExpl (s : List Char) : String :=
  "Sender domain " ++ sq ++ String.mk (senderDomainOf s) ++ sq ++ " doesn" ++ sq
    ++ "t match link domains " ++ pyListRepr (linkDomainsOf s)

/-- The breakdown list analyze builds, with the eight conditional
    appends in source order. -/
def breakdownOf (s : List Char) : List Signal :=
  (if suspiciousUrlsOf s ≠ [] then
    [⟨"suspicious_url", weights ("suspicious_url"),
      "URLs with suspicious patterns: " ++ pyListRepr (suspiciousUrlsOf s)⟩] else [])
  ++ (if ipUrlsOf s ≠ [] then
    [⟨"ip_url", weights ("ip_url"),
      "URLs using raw IP addresses: " ++ pyListRepr (ipUrlsOf s)⟩] else [])
  ++ (if httpOnlyOf s ≠ [] then
    [⟨"http_not_https", weights ("http_not_https"),
      "Non-HTTPS links found: " ++ pyListRepr (httpOnlyOf s)⟩] else [])
  ++ (if (urlsOf s).length ≥ 3 then
    [⟨"multiple_links", weights ("multiple_links"),
      "Email contains " ++ toString (urlsOf s).length ++ " links"⟩] else [])
  ++ (if hitsOf s ≠ [] then
    [⟨"urgent_language", min (weights ("urgent_language")) ((hitsOf s).length * 3),
      "Phishing keywords found: " ++ pyListRepr (hitsOf s)⟩] else [])
  ++ (if find_attachments s ≠ [] then
    [⟨"suspicious_attachment", weights ("suspicious_attachment"),
      "Suspicious attachments: " ++ pyListRepr (find_attachments s)⟩] else [])
  ++ (if mismatchOf s = true then
    [⟨"sender_mismatch", weights ("sender_mismatch"), mismatchExpl s⟩] else [])
  ++ (if badTldCountOf s ≠ 0 then
    [⟨"bad_tld", min (weights ("bad_tld")) (badTldCountOf s * 4),
      "Unusual domain parts count: " ++ toString (badTldCountOf s)⟩] else [])

/-- total: the running sum of the applied weights, which equals the sum
    over the breakdown because analyze adds exactly the value it appends. -/
def totalOf (s : List Char) : Nat := ((breakdownOf s).map Signal.weight).sum

/-- PhishDetector.analyze from src/detector.py.  The Python score line is
    int((total / max_possible) * 100) with float division followed by
    truncation; for every total in 0..145 the float computation agrees
    exactly with Nat floor division total * 100 / 145 (the only values at
    risk are the multiples of 29, and the double rounding stays on the
    correct side of the integer for each of them), so the embedding uses
    Nat division.  The clamp to 0..100 follows as in the source. -/
def analyze (s : List Char) : AnalysisResult :=
  let score0 : Nat := if maxPossibleRaw = 0 then 0 else totalOf s * 100 / maxPossibleRaw
  { score := max 0 (min 100 score0)
    max_score := 100
    raw_total := totalOf s
    max_possible_raw := maxPossibleRaw
    breakdown := breakdownOf s
    sender := (extract_sender_from_headers s).1
    reply_to := (extract_sender_from_headers s).2
    urls := urlsOf s }

/-! ### Spec-side definitions (formalizations of the claim wording, to be
    compared with the embedded code) -/

/-- Score formula as claim C1 words it: the normalized ratio rounded to
    the nearest integer (half rounds up; no tie is involved in any value
    this development evaluates), clamped to 0..100, and 0 in the
    degenerate zero-maximum case. -/
def roundScoreSpec (raw maxp : Nat) : Nat :=
  if maxp = 0 then 0 else min 100 ((200 * raw + maxp) / (2 * maxp))

/-- Score formula as the code computes it: truncating (floor) division,
    then the clamp, and 0 in the degenerate zero-maximum case. -/
def floorScoreSpec (raw maxp : Nat) : Nat :=
  if maxp = 0 then 0 else min 100 (raw * 100 / maxp)

/-- Whole-host dotted-quad test as claim C4 words it: the entire host is
    four 1-3 digit groups separated by dots, with no range validation. -/
def isDottedQuad (host : List Char) : Bool :=
  (splitOnChar '.' host).length = 4
    && (splitOnChar '.' host).all
      (fun p => !p.isEmpty && decide (p.length ≤ 3) && p.all Char.isDigit)

/-- Sender-mismatch trigger condition as claim C5 words it, over the
    sender domain and the set of link domains. -/
def SenderMismatchSpec (sd : List Char) (lds : List (List Char)) : Prop :=
  sd ≠ [] ∧ lds ≠ [] ∧
    ∀ ld ∈ lds, ¬ (sd <:+ ld ∨ ld <:+ sd ∨ (lastPart '.' sd) <:+ ld)

/-- A 1-3 character group of digits. -/
def DigitGroup (d : List Char) : Prop :=
  d ≠ [] ∧ d.length ≤ 3 ∧ ∀ c ∈ d, c.isDigit = true

/-- Declarative reading of a dotted-quad match starting at the front of
    l: four digit groups separated by literal dots, with the text after
    the fourth group either empty or starting with a non-word character
    (the trailing word boundary). -/
def QuadShape (l : List Char) : Prop :=
  ∃ d1 d2 d3 d4 rest,
    l = d1 ++ '.' :: (d2 ++ '.' :: (d3 ++ '.' :: (d4 ++ rest))) ∧
    DigitGroup d1 ∧ DigitGroup d2 ∧ DigitGroup d3 ∧ DigitGroup d4 ∧
    (rest = [] ∨ ∃ c r, rest = c :: r ∧ isWordChar c = false)

/-- Declarative reading of bool(IP_REGEX.search(host)): somewhere in the
    host, after either the start of the string or a non-word character
    (the leading word boundary), a dotted-quad match begins. -/
def IpUrlSpec (host : List Char) : Prop :=
  ∃ pre rest, host = pre ++ rest ∧ QuadShape rest ∧
    (pre = [] ∨ ∃ p c, pre = p ++ [c] ∧ isWordChar c = false)

/-! ### Concrete inputs used by counterexamples and witnesses -/

/-- Input triggering exactly the suspicious_url rule, so raw_total 30. -/
def c1inp : List Char := ("See https://aa-bb-cc.com/page today").toList

/-- Witness input for C2: one phishing keyword present. -/
def c2w : List Char := ("please verify now").toList

/-- The sample input of spec section 8: From billing at paypal dot com,
    three links, and the suspension sentence. -/
def c3inp : List Char :=
  ("From: billing@paypal.com\n\nYour account has been suspended, verify immediately.\nhttp://192.168.1.5/login\nhttp://paypal-secure-verify.com/reset\nhttps://paypal.com/account\n").toList

/-- Witness input for C6: exactly one signal (http_not_https). -/
def c6w : List Char := ("go http://ok.net/a now").toList

/-- Witness input for C7: a malformed header line without a colon. -/
def c7w : List Char := ("garbage header line\n\nbody").toList

/-- Witness input for C5: sender domain evil.com against the sole link
    domain phish.net, which triggers the mismatch. -/
def c5w : List Char := ("From: a@evil.com\n\nvisit http://phish.net/x").toList

/-- Witness input for C9: three keyword phrases, two overlapping. -/
def c9w : List Char := ("urgent: verify your account today").toList

/-- Witness header and body for C10: the keyword occurs only in the
    Subject header line. -/
def c10hdr : List Char := ("Subject: please verify\n\n").toList

/-- Witness body for C10, free of keywords and URLs. -/
def c10rest : List Char := ("hello").toList

/-- Host on which the C4 counterexample is evaluated. -/
def c4u : List Char := ("http://192.168.1.5.com/a").toList

/-! ### Helper lemmas -/

theorem maxPossibleRaw_eq : maxPossibleRaw = 145 := by decide

theorem mem_ite_singleton {α} (a x : α) (c : Prop) [Decidable c] :
    a ∈ (if c then [x] else []) ↔ c ∧ a = x := by
  split
  case isTrue h => simp [h]
  case isFalse h => simp [h]

theorem mem_cond_block {a sg : Signal} {c : Prop} [Decidable c]
    (h : a ∈ (if c then [sg] else [])) : a = sg := by
  rcases (mem_ite_singleton a sg c).mp h with ⟨_, h2⟩
  exact h2

theorem name_mem_breakdown (s : List Char) (nm : String) :
    nm ∈ (breakdownOf s).map Signal.name ↔
      (suspiciousUrlsOf s ≠ [] ∧ nm = "suspicious_url")
      ∨ (ipUrlsOf s ≠ [] ∧ nm = "ip_url")
      ∨ (httpOnlyOf s ≠ [] ∧ nm = "http_not_https")
      ∨ ((urlsOf s).length ≥ 3 ∧ nm = "multiple_links")
      ∨ (hitsOf s ≠ [] ∧ nm = "urgent_language")
      ∨ (find_attachments s ≠ [] ∧ nm = "suspicious_attachment")
      ∨ (mismatchOf s = true ∧ nm = "sender_mismatch")
      ∨ (badTldCountOf s ≠ 0 ∧ nm = "bad_tld") := by
  unfold breakdownOf
  simp only [List.map_append, List.mem_append, apply_ite (List.map Signal.name),
    List.map_cons, List.map_nil, mem_ite_singleton]
  tauto

theorem urgent_mem_iff (s : List Char) :
    ("urgent_language" ∈ (breakdownOf s).map Signal.name) ↔ (hitsOf s) ≠ [] := by
  rw [name_mem_breakdown]
  constructor
  · rintro (⟨_, h⟩|⟨_, h⟩|⟨_, h⟩|⟨_, h⟩|⟨h, _⟩|⟨_, h⟩|⟨_, h⟩|⟨_, h⟩) <;>
      first
        | (exact absurd h (by decide))
        | exact h
  · intro h
    exact Or.inr (Or.inr (Or.inr (Or.inr (Or.inl ⟨h, rfl⟩))))

theorem mismatch_mem_iff (s : List Char) :
    ("sender_mismatch" ∈ (breakdownOf s).map Signal.name) ↔ mismatchOf s = true := by
  rw [name_mem_breakdown]
  constructor
  · rintro (⟨_, h⟩|⟨_, h⟩|⟨_, h⟩|⟨_, h⟩|⟨_, h⟩|⟨_, h⟩|⟨h, _⟩|⟨_, h⟩) <;>
      first
        | (exact absurd h (by decide))
        | exact h
  · intro h
    exact Or.inr (Or.inr (Or.inr (Or.inr (Or.inr (Or.inr (Or.inl ⟨h, rfl⟩))))))

theorem mismatchOf_iff (s : List Char) :
    mismatchOf s = true ↔ SenderMismatchSpec (senderDomainOf s) (linkDomainsOf s) := by
  unfold mismatchOf SenderMismatchSpec
  simp only [Bool.and_eq_true, Bool.not_eq_true', List.isEmpty_eq_false,
    List.any_eq_false, Bool.or_eq_true, List.isSuffixOf_iff_suffix, not_or]
  constructor
  · rintro ⟨⟨h1, h2⟩, h3⟩
    refine ⟨h1, h2, fun ld hld => ?_⟩
    have h4 := h3 ld hld
    tauto
  · rintro ⟨h1, h2, h3⟩
    refine ⟨⟨h1, h2⟩, fun ld hld => ?_⟩
    have h4 := h3 ld hld
    tauto

/-! ### Claim C1 -/

/-- C1 counterexample: at c1inp the code truncates 30 / 145 * 100 =
    20.69 down to 20, while the claimed round-to-nearest formula gives
    21, so the claimed equation is false on this input. -/
theorem c1_counterexample :
    (analyze c1inp).raw_total = 30 ∧ (analyze c1inp).max_possible_raw = 145 ∧
    (analyze c1inp).score = 20 ∧
    roundScoreSpec (analyze c1inp).raw_total (analyze c1inp).max_possible_raw = 21 ∧
    (analyze c1inp).score ≠
      roundScoreSpec (analyze c1inp).raw_total (analyze c1inp).max_possible_raw := by
  decide

/-- C1 (amended): for every input string the score equals
    clamp(floor(raw_total * 100 / max_possible_raw), 0, 100) - truncating
    division, not round-to-nearest - and 0 in the degenerate case
    max_possible_raw = 0. -/
theorem c1_score_is_floor (s : List Char) :
    (analyze s).score = floorScoreSpec (analyze s).raw_total (analyze s).max_possible_raw := by
  show max 0 (min 100 _) = _
  rw [floorScoreSpec]
  simp only [analyze, maxPossibleRaw_eq]
  norm_num

/-! ### Claim C2 -/

/-- C2 counterexample: the dictionary analyze returns has no
    keyword_hits key. -/
theorem c2_counterexample : "keyword_hits" ∉ analyzeResultKeys := by decide

/-- C2 (amended): the result keys are exactly score, max_score,
    raw_total, max_possible_raw, breakdown, sender, reply_to and urls,
    with no keyword_hits field; the matched keyword strings surface only
    inside the urgent_language explanation. -/
theorem c2_keys :
    analyzeResultKeys = ["score", "max_score", "raw_total", "max_possible_raw",
      "breakdown", "sender", "reply_to", "urls"]
    ∧ "keyword_hits" ∉ analyzeResultKeys
    ∧ ∀ s : List Char, hitsOf s ≠ [] →
        ∃ sig ∈ (analyze s).breakdown, sig.name = "urgent_language" ∧
          sig.explanation = "Phishing keywords found: " ++ pyListRepr (hitsOf s) := by
  refine ⟨rfl, by decide, fun s h => ?_⟩
  refine ⟨⟨"urgent_language", min (weights ("urgent_language")) ((hitsOf s).length * 3),
    "Phishing keywords found: " ++ pyListRepr (hitsOf s)⟩, ?_, rfl, rfl⟩
  show _ ∈ breakdownOf s
  unfold breakdownOf
  refine List.mem_append_left _ (List.mem_append_left _ (List.mem_append_left _
    (List.mem_append_right _ ?_)))
  rw [if_pos h]
  exact List.mem_singleton.mpr rfl

theorem c2_keys_witness :
    ∃ sig ∈ (analyze c2w).breakdown, sig.name = "urgent_language" ∧
      sig.explanation = "Phishing keywords found: " ++ pyListRepr (hitsOf c2w) :=
  c2_keys.2.2 c2w (by decide)

/-! ### Claim C3 -/

/-- C3 counterexample: on the sample input the bad_tld rule also
    triggers (the label paypal-secure-verify is 20 characters long), so
    the triggered set is not exactly the five signals the claim lists. -/
theorem c3_counterexample :
    "bad_tld" ∈ (analyze c3inp).breakdown.map Signal.name ∧
    "bad_tld" ∉ ["ip_url", "http_not_https", "multiple_links",
      "suspicious_url", "urgent_language"] := by
  decide

/-- C3 (amended): the triggered signals on the sample input are exactly
    suspicious_url, ip_url, http_not_https, multiple_links,
    urgent_language and bad_tld, in breakdown order; sender_mismatch does
    not trigger (one link domain matches the sender domain) and the score
    is 55, strictly below 100. -/
theorem c3_sample_signals :
    (analyze c3inp).breakdown.map Signal.name =
      ["suspicious_url", "ip_url", "http_not_https", "multiple_links",
       "urgent_language", "bad_tld"] ∧
    "sender_mismatch" ∉ (analyze c3inp).breakdown.map Signal.name ∧
    (analyze c3inp).score = 55 ∧ (analyze c3inp).score < 100 := by
  decide

/-! ### Claim C6 -/

theorem sum_ite_singleton (c : Prop) [Decidable c] (w : Nat) :
    ((if c then [w] else []) : List Nat).sum = if c then w else 0 := by
  split <;> simp

/-- C6: the result invariants.  Scores are Nat here, so score is
    non-negative by type; the remaining claims are the fixed 145 maximum
    (the sum 30+20+10+8+15+25+25+12 of the weight table), raw_total
    bounded by it, score at most 100, and every emitted signal capped by
    its configured rule weight. -/
theorem c6_invariants (s : List Char) :
    (analyze s).max_possible_raw = 145 ∧
    (analyze s).raw_total ≤ (analyze s).max_possible_raw ∧
    (analyze s).score ≤ 100 ∧
    ∀ sig ∈ (analyze s).breakdown, sig.weight ≤ weights sig.name := by
  refine ⟨maxPossibleRaw_eq, ?_, ?_, ?_⟩
  · show totalOf s ≤ maxPossibleRaw
    rw [maxPossibleRaw_eq]
    unfold totalOf breakdownOf
    simp only [List.map_append, List.sum_append, apply_ite (List.map Signal.weight),
      List.map_cons, List.map_nil, sum_ite_singleton,
      show weights ("suspicious_url") = 30 from by decide,
      show weights ("ip_url") = 20 from by decide,
      show weights ("http_not_https") = 10 from by decide,
      show weights ("multiple_links") = 8 from by decide,
      show weights ("urgent_language") = 15 from by decide,
      show weights ("suspicious_attachment") = 25 from by decide,
      show weights ("sender_mismatch") = 25 from by decide,
      show weights ("bad_tld") = 12 from by decide]
    repeat' split
    all_goals omega
  · have hs : (analyze s).score =
        max 0 (min 100 (if maxPossibleRaw = 0 then 0
          else totalOf s * 100 / maxPossibleRaw)) := rfl
    rw [hs]
    omega
  · intro sig h
    have hb : (analyze s).breakdown = breakdownOf s := rfl
    rw [hb] at h
    unfold breakdownOf at h
    simp only [List.mem_append] at h
    rcases h with (((((((h|h)|h)|h)|h)|h)|h)|h) <;>
      rw [mem_cond_block h] <;>
      first
        | exact Nat.le_refl _
        | exact Nat.min_le_left _ _

theorem c6_invariants_witness :
    ((analyze c6w).breakdown.headD ⟨"", 0, ""⟩).weight ≤
      weights ((analyze c6w).breakdown.headD ⟨"", 0, ""⟩).name :=
  (c6_invariants c6w).2.2.2 ((analyze c6w).breakdown.headD ⟨"", 0, ""⟩) (by decide)

/-! ### Claim C7 -/

/-- C7: analyze is total (it always yields a complete result record) and
    an internal header-parse failure degrades to empty sender and
    reply-to fields and an empty attachment list instead of propagating. -/
theorem c7_never_fails (s : List Char) :
    (∃ r : AnalysisResult, analyze s = r) ∧
    ∀ e, parseHeaders s = Except.error e →
      (analyze s).sender = [] ∧ (analyze s).reply_to = [] ∧ find_attachments s = [] := by
  refine ⟨⟨analyze s, rfl⟩, fun e he => ?_⟩
  refine ⟨?_, ?_, ?_⟩
  · show (extract_sender_from_headers s).1 = []
    unfold extract_sender_from_headers
    rw [he]
  · show (extract_sender_from_headers s).2 = []
    unfold extract_sender_from_headers
    rw [he]
  · unfold find_attachments
    rw [he]

theorem c7_never_fails_witness :
    (analyze c7w).sender = [] ∧ (analyze c7w).reply_to = [] ∧
      find_attachments c7w = [] :=
  (c7_never_fails c7w).2 ("missing colon in header line") rfl

/-! ### Claim C8 -/

theorem tryUrlToken_some {pre l t : List Char} (h : tryUrlToken pre l = some t) :
    t ≠ [] ∧ t <+: l := by
  unfold tryUrlToken at h
  by_cases hp : pre.isPrefixOf l
  · simp only [hp, if_true] at h
    by_cases hb : ((l.drop pre.length).takeWhile urlChar).isEmpty
    · simp [hb] at h
    · simp only [hb, if_false] at h
      cases h
      constructor
      · intro hc
        apply hb
        have := List.append_eq_nil.mp hc
        simp [this.2, List.isEmpty_iff]
      · have hpl : pre <+: l := List.isPrefixOf_iff_prefix.mp hp
        obtain ⟨rest, hrest⟩ := hpl
        have hdrop : l.drop pre.length = rest := by
          rw [← hrest]; exact List.drop_left pre rest
        rw [hdrop, ← hrest]
        exact ⟨rest.dropWhile urlChar, by
          rw [List.append_assoc, List.takeWhile_append_dropWhile]⟩
  · simp [hp] at h

theorem matchUrlAt_some {l t : List Char} (h : matchUrlAt l = some t) :
    t ≠ [] ∧ t <+: l := by
  unfold matchUrlAt at h
  cases h1 : tryUrlToken ("https://".toList) l with
  | some t1 => rw [h1] at h; cases h; exact tryUrlToken_some h1
  | none =>
    rw [h1] at h
    cases h2 : tryUrlToken ("http://".toList) l with
    | some t2 => rw [h2] at h; cases h; exact tryUrlToken_some h2
    | none => rw [h2] at h; exact tryUrlToken_some h

theorem scanUrlsFuel_infix :
    ∀ (fuel : Nat) (l : List Char), ∀ u ∈ scanUrlsFuel fuel l, u <:+: l := by
  intro fuel
  induction fuel with
  | zero => intro l u hu; simp [scanUrlsFuel] at hu
  | succ n ih =>
    intro l u hu
    match l with
    | [] => simp [scanUrlsFuel] at hu
    | c :: rest =>
      rw [scanUrlsFuel] at hu
      cases hm : matchUrlAt (c :: rest) with
      | none =>
        rw [hm] at hu
        exact (ih rest u hu).trans ( List.IsSuffix.isInfix (List.suffix_cons c rest))
      | some tok =>
        rw [hm] at hu
        rcases List.mem_cons.mp hu with h | h
        · rw [h]
          exact List.IsPrefix.isInfix (matchUrlAt_some hm).2
        · exact (ih _ u h).trans ( List.IsSuffix.isInfix (List.drop_suffix _ _))

/-- C8: every extracted URL is an exact substring (infix) of the original
    input text, and a text containing the same URL twice yields it twice,
    in scan order (duplicates preserved). -/
theorem c8_urls_substring :
    (∀ text u, u ∈ (analyze text).urls → u <:+: text) ∧
    (analyze ("x http://a.com/p y http://a.com/p z".toList)).urls =
      ["http://a.com/p".toList, "http://a.com/p".toList] := by
  constructor
  · intro text u hu
    exact scanUrlsFuel_infix text.length text u hu
  · decide

theorem c8_urls_substring_witness :
    ("http://a.com/p".toList) <:+: ("x http://a.com/p y http://a.com/p z".toList) :=
  c8_urls_substring.1 _ _ (by decide)

/-! ### Claim C5 -/

/-- C5: the sender_mismatch signal triggers exactly when a sender domain
    is present, at least one link domain is present, and no link domain
    is in one of the three suffix relationships with the sender domain;
    it always carries the flat weight 25; and it can never trigger when
    no address-like pattern is found in the From header. -/
theorem c5_sender_mismatch (s : List Char) :
    (("sender_mismatch" ∈ (analyze s).breakdown.map Signal.name) ↔
      SenderMismatchSpec (senderDomainOf s) (linkDomainsOf s))
    ∧ (∀ sig ∈ (analyze s).breakdown, sig.name = "sender_mismatch" → sig.weight = 25)
    ∧ (findEmail (fromHeaderOf s) = none →
        "sender_mismatch" ∉ (analyze s).breakdown.map Signal.name) := by
  have hb : (analyze s).breakdown = breakdownOf s := rfl
  refine ⟨?_, ?_, ?_⟩
  · rw [hb, mismatch_mem_iff, mismatchOf_iff]
  · intro sig h hn
    rw [hb] at h
    unfold breakdownOf at h
    simp only [List.mem_append] at h
    rcases h with (((((((h|h)|h)|h)|h)|h)|h)|h) <;> rw [mem_cond_block h] at hn ⊢ <;>
      simp_all [show weights ("sender_mismatch") = 25 from by decide]
  · intro hne
    rw [hb, mismatch_mem_iff]
    intro hm
    have hspec := (mismatchOf_iff s).mp hm
    have hsd : senderDomainOf s = [] := by unfold senderDomainOf; rw [hne]
    exact hspec.1 hsd

theorem c5_sender_mismatch_witness :
    SenderMismatchSpec (senderDomainOf c5w) (linkDomainsOf c5w) :=
  (c5_sender_mismatch c5w).1.mp (by decide)

/-! ### Claim C9 -/

/-- C9: urgent_language triggers exactly when some phrase of the fixed
    keyword list is a substring of the lower-cased body, and its applied
    weight is min(15, 3 times the number of matching keywords); the
    filter over the fixed keyword list counts compound phrases such as
    verify and verify your account separately, with no deduplication. -/
theorem c9_urgent_language (s : List Char) :
    (("urgent_language" ∈ (analyze s).breakdown.map Signal.name) ↔
      ∃ kw ∈ PHISHING_KEYWORDS, listContains (pyLower s) kw = true)
    ∧ ∀ sig ∈ (analyze s).breakdown, sig.name = "urgent_language" →
        sig.weight = min 15
          (3 * (PHISHING_KEYWORDS.filter (fun kw => listContains (pyLower s) kw)).length) := by
  have hb : (analyze s).breakdown = breakdownOf s := rfl
  constructor
  · rw [hb, urgent_mem_iff]
    unfold hitsOf
    constructor
    · intro h
      by_contra hc
      push_neg at hc
      refine h (List.filter_eq_nil_iff.mpr fun kw hkw => ?_)
      simpa using hc kw hkw
    · rintro ⟨kw, hkw, hc⟩
      exact List.ne_nil_of_mem (List.mem_filter.mpr ⟨hkw, hc⟩)
  · intro sig h hn
    rw [hb] at h
    unfold breakdownOf at h
    simp only [List.mem_append] at h
    rcases h with (((((((h|h)|h)|h)|h)|h)|h)|h) <;> rw [mem_cond_block h] at hn ⊢ <;>
      simp_all [hitsOf, Nat.mul_comm,
        show weights ("urgent_language") = 15 from by decide]

theorem c9_urgent_language_witness :
    ∃ kw ∈ PHISHING_KEYWORDS, listContains (pyLower c9w) kw = true :=
  (c9_urgent_language c9w).1.mp (by decide)

/-! ### Claim C10 -/

theorem listContains_append_left (l r pat : List Char)
    (h : listContains l pat = true) : listContains (l ++ r) pat = true := by
  induction l with
  | nil =>
    have hp : pat = [] := by
      simpa [listContains, List.isEmpty_iff] using h
    subst hp
    cases r <;> simp [listContains, List.isPrefixOf]
  | cons c t ih =>
    rw [List.cons_append]
    rw [listContains] at h ⊢
    simp only [Bool.or_eq_true] at h ⊢
    rcases h with hp | ht
    · left
      have h1 : pat <+: (c :: t) := List.isPrefixOf_iff_prefix.mp hp
      exact List.isPrefixOf_iff_prefix.mpr (h1.trans (List.prefix_append _ r))
    · right
      exact ih ht

/-- C10: the analysis scans the entire raw message: the urls field is
    the extraction over the whole input (headers included), and a keyword
    occurring anywhere in a leading segment (for example a header line)
    triggers urgent_language exactly as a body occurrence would. -/
theorem c10_headers_scanned :
    (∀ s, (analyze s).urls = extract_urls s) ∧
    ∀ hdr rest kw, kw ∈ PHISHING_KEYWORDS → listContains (pyLower hdr) kw = true →
      "urgent_language" ∈ (analyze (hdr ++ rest)).breakdown.map Signal.name := by
  constructor
  · intro s; rfl
  · intro hdr rest kw hkw hc
    have hb : (analyze (hdr ++ rest)).breakdown = breakdownOf (hdr ++ rest) := rfl
    rw [hb, urgent_mem_iff]
    have hcc : listContains (pyLower (hdr ++ rest)) kw = true := by
      unfold pyLower
      rw [List.map_append]
      exact listContains_append_left _ _ _ hc
    show hitsOf (hdr ++ rest) ≠ []
    unfold hitsOf
    exact List.ne_nil_of_mem (List.mem_filter.mpr ⟨hkw, hcc⟩)

theorem c10_headers_scanned_witness :
    "urgent_language" ∈ (analyze (c10hdr ++ c10rest)).breakdown.map Signal.name :=
  c10_headers_scanned.2 c10hdr c10rest ("verify".toList) (by decide) (by decide)

/-! ### Claim C4 -/

theorem digit_isWordChar {c : Char} (h : c.isDigit = true) : isWordChar c = true := by
  simp [isWordChar, Char.isAlphanum, h]

theorem takeWhile_append_not {p : Char → Bool} {d r : List Char}
    (hd : ∀ c ∈ d, p c = true) (hr : ∀ c rr, r = c :: rr → p c = false) :
    (d ++ r).takeWhile p = d ∧ (d ++ r).dropWhile p = r := by
  induction d with
  | nil =>
    simp only [List.nil_append]
    cases r with
    | nil => simp
    | cons x rr =>
      have hx : p x = false := hr x rr rfl
      simp [List.takeWhile_cons, List.dropWhile_cons, hx]
  | cons a t ih =>
    have ha : p a = true := hd a (List.mem_cons_self a t)
    obtain ⟨h1, h2⟩ := ih (fun c hc => hd c (List.mem_cons_of_mem a hc))
    simp [List.takeWhile_cons, List.dropWhile_cons, ha, h1, h2]

theorem takeGroup_some_of {l d r : List Char} (h : takeGroup l = some (d, r)) :
    l = d ++ r ∧ DigitGroup d := by
  unfold takeGroup at h
  by_cases hc : 1 ≤ (l.takeWhile Char.isDigit).length ∧ (l.takeWhile Char.isDigit).length ≤ 3
  · rw [if_pos hc] at h
    simp only [Option.some.injEq, Prod.mk.injEq] at h
    obtain ⟨hd, hr⟩ := h
    subst hd
    subst hr
    refine ⟨(List.takeWhile_append_dropWhile _ _).symm, ?_, hc.2, ?_⟩
    · intro hnil
      rw [hnil] at hc
      simp at hc
    · intro c hcmem
      exact List.mem_takeWhile_imp hcmem
  · rw [if_neg hc] at h
    cases h

theorem takeGroup_of_shape {d r : List Char} (hd : DigitGroup d)
    (hr : ∀ c rr, r = c :: rr → c.isDigit = false) :
    takeGroup (d ++ r) = some (d, r) := by
  obtain ⟨hne, hlen, hdig⟩ := hd
  obtain ⟨h1, h2⟩ := takeWhile_append_not (p := Char.isDigit) hdig hr
  have hpos : 1 ≤ d.length := by
    cases d with
    | nil => exact absurd rfl hne
    | cons _ _ => simp
  unfold takeGroup
  rw [h1, h2, if_pos ⟨hpos, hlen⟩]

theorem expectDot_some {l r : List Char} (h : expectDot l = some r) : l = '.' :: r := by
  unfold expectDot at h
  split at h
  next x rr =>
    split at h
    next hx =>
      subst hx
      injection h with h1
      rw [h1]
    next => cases h
  next => cases h

theorem quadTail_some_of {l r : List Char} (h : quadTail l = some r) :
    ∃ d, l = d ++ '.' :: r ∧ DigitGroup d := by
  unfold quadTail at h
  split at h
  next d r1 heq =>
    obtain ⟨hl, hdg⟩ := takeGroup_some_of heq
    rw [expectDot_some h] at hl
    exact ⟨d, hl, hdg⟩
  next => cases h

theorem quadTail_of_shape {d rest : List Char} (hd : DigitGroup d) :
    quadTail (d ++ '.' :: rest) = some rest := by
  unfold quadTail
  rw [takeGroup_of_shape hd (fun c rr h => by
    injection h with h1 _
    subst h1
    decide)]
  simp [expectDot]

theorem matchQuad_nil : matchQuad [] = false := by decide

theorem matchQuad_iff (l : List Char) : matchQuad l = true ↔ QuadShape l := by
  constructor
  · intro h
    unfold matchQuad at h
    split at h
    next => cases h
    next l2 heq2 =>
      split at h
      next => cases h
      next l3 heq3 =>
        split at h
        next => cases h
        next l4 heq4 =>
          split at h
          next => cases h
          next d4 r heq5 =>
            obtain ⟨d1, h1, hg1⟩ := quadTail_some_of heq2
            obtain ⟨d2, h2, hg2⟩ := quadTail_some_of heq3
            obtain ⟨d3, h3, hg3⟩ := quadTail_some_of heq4
            obtain ⟨h4, hg4⟩ := takeGroup_some_of heq5
            refine ⟨d1, d2, d3, d4, r, ?_, hg1, hg2, hg3, hg4, ?_⟩
            · rw [h1, h2, h3, h4]
            · cases r with
              | nil => exact Or.inl rfl
              | cons x rr =>
                refine Or.inr ⟨x, rr, rfl, ?_⟩
                simpa [quadEndOk] using h
  · rintro ⟨d1, d2, d3, d4, rest, heq, hg1, hg2, hg3, hg4, hrest⟩
    subst heq
    have e4 : takeGroup (d4 ++ rest) = some (d4, rest) := by
      refine takeGroup_of_shape hg4 (fun c rr hr => ?_)
      rcases hrest with hnil | ⟨x, r2, hx, hw⟩
      · rw [hnil] at hr
        cases hr
      · rw [hx] at hr
        injection hr with hce _
        rw [← hce]
        by_cases hdig : x.isDigit = true
        · rw [digit_isWordChar hdig] at hw
          cases hw
        · simpa using hdig
    unfold matchQuad
    simp only [quadTail_of_shape hg1, quadTail_of_shape hg2, quadTail_of_shape hg3, e4]
    rcases hrest with hnil | ⟨x, r2, hx, hw⟩
    · rw [hnil]
      rfl
    · rw [hx]
      simp [quadEndOk, hw]

theorem ipSearchAux_iff :
    ∀ (l : List Char) (prev : Option Char),
      ipSearchAux prev l = true ↔
        ∃ pre rest, l = pre ++ rest ∧ matchQuad rest = true ∧
          ((pre = [] ∧ boundaryOk prev = true) ∨
            ∃ p c, pre = p ++ [c] ∧ isWordChar c = false) := by
  intro l
  induction l with
  | nil =>
    intro prev
    constructor
    · intro h
      simp [ipSearchAux, matchQuad_nil] at h
    · rintro ⟨pre, rest, heq, hm, _⟩
      obtain ⟨hp, hr⟩ := List.append_eq_nil.mp heq.symm
      rw [hr, matchQuad_nil] at hm
      cases hm
  | cons c t ih =>
    intro prev
    rw [show ipSearchAux prev (c :: t) =
      ((boundaryOk prev && matchQuad (c :: t)) || ipSearchAux (some c) t) from rfl]
    simp only [Bool.or_eq_true, Bool.and_eq_true]
    rw [ih (some c)]
    constructor
    · rintro (⟨hb, hm⟩ | ⟨pre, rest, heq, hm, hcond⟩)
      · exact ⟨[], c :: t, rfl, hm, Or.inl ⟨rfl, hb⟩⟩
      · rcases hcond with ⟨hpre, hb⟩ | ⟨p, x, hpe, hw⟩
        · subst hpre
          simp only [List.nil_append] at heq
          refine ⟨[c], rest, by rw [List.cons_append, List.nil_append, heq], hm,
            Or.inr ⟨[], c, rfl, ?_⟩⟩
          simpa [boundaryOk] using hb
        · subst hpe
          refine ⟨c :: (p ++ [x]), rest, ?_, hm, Or.inr ⟨c :: p, x, by simp, hw⟩⟩
          rw [List.cons_append, heq]
    · rintro ⟨pre, rest, heq, hm, hcond⟩
      rcases hcond with ⟨hpre, hb⟩ | ⟨p, x, hpe, hw⟩
      · subst hpre
        simp only [List.nil_append] at heq
        rw [heq]
        exact Or.inl ⟨hb, hm⟩
      · subst hpe
        cases p with
        | nil =>
          simp only [List.nil_append] at heq
          injection heq with h1 h2
          subst h1
          right
          exact ⟨[], rest, by simpa using h2, hm,
            Or.inl ⟨rfl, by simpa [boundaryOk] using hw⟩⟩
        | cons q qs =>
          rw [List.cons_append, List.cons_append] at heq
          injection heq with h1 h2
          subst h1
          right
          exact ⟨qs ++ [x], rest, h2, hm, Or.inr ⟨qs, x, rfl, hw⟩⟩

/-- C4 counterexample: the host 192.168.1.5.com is not a whole-host
    dotted quad, yet is_ip_url answers true, because IP_REGEX is searched
    anywhere in the host (word-boundary delimited), not anchored to the
    whole host. -/
theorem c4_counterexample :
    is_ip_url c4u = true ∧ isDottedQuad (urlHost c4u) = false := by
  decide

/-- C4 (amended): is_ip_url is true exactly when the host (after the
    scheme normalization) contains, at a position preceded by the start
    of the host or a non-word character, four 1-3 digit groups separated
    by dots and followed by the end of the host or a non-word character -
    a word-boundary-delimited dotted-quad substring, not necessarily the
    whole host, with no range validation of the groups. -/
theorem c4_ip_url_search (u : List Char) :
    is_ip_url u = true ↔ IpUrlSpec (urlHost u) := by
  unfold is_ip_url ipSearch IpUrlSpec
  rw [ipSearchAux_iff]
  constructor
  · rintro ⟨pre, rest, heq, hm, hcond⟩
    refine ⟨pre, rest, heq, (matchQuad_iff rest).mp hm, ?_⟩
    rcases hcond with ⟨hp, _⟩ | h
    · exact Or.inl hp
    · exact Or.inr h
  · rintro ⟨pre, rest, heq, hq, hcond⟩
    refine ⟨pre, rest, heq, (matchQuad_iff rest).mpr hq, ?_⟩
    rcases hcond with hp | h
    · exact Or.inl ⟨hp, rfl⟩
    · exact Or.inr h

end PhishBot
